import Mathlib

/-!
Shallow embedding of the arcade turn-queueing service (src/main.py, src/config.py).

Timestamps are modelled as integers (seconds). Python dictionaries are modelled
as association lists with unique keys: dget / dset / dpop / dfind mirror
dict.get, dict item assignment, del / dict.pop and membership lookup.
The per-game record Game mirrors the Game dataclass of main.py, AppState the
process-wide mutable state (games table, pause flag and timestamp, courtesy
cooldown ledger). Every state-mutating handler of main.py is embedded as a
pure function on AppState taking the current time as an explicit argument;
the session/authentication plumbing resolves a request to a player name before
any of this state is touched, so the embedded operations take the player name
directly. The gacha reward ledger (gacha_collections, gacha_pulls_given,
gacha_last_pull in main.py) lives outside the Game records and the cooldown
ledger, is driven by random sampling, and is never mentioned by the properties
verified here, so it is not part of AppState; the part of done_playing that
touches only that ledger is omitted.
-/

/-- TURN_TIMEOUT_SECONDS from src/config.py. -/
def TURN_TIMEOUT_SECONDS : Int := 60

/-- COURTESY_COOLDOWN_SECONDS from src/config.py. -/
def COURTESY_COOLDOWN_SECONDS : Int := 10

/-- GAME_NAMES from src/config.py. -/
def GAME_NAMES : List String := ["Maimai", "Chunithm", "Wacca", "Sound Voltex"]

/-- dict.get k default on an association list (first matching key wins). -/
def dget {κ α : Type} [DecidableEq κ] (d : List (κ × α)) (k : κ) (v₀ : α) : α :=
  match d with
  | [] => v₀
  | e :: es => if e.1 = k then e.2 else dget es k v₀

/-- Lookup returning an Option, mirroring k in d plus d[k]. -/
def dfind {κ α : Type} [DecidableEq κ] (d : List (κ × α)) (k : κ) : Option α :=
  match d with
  | [] => none
  | e :: es => if e.1 = k then some e.2 else dfind es k

/-- dict item assignment d[k] = v: replace the first binding of k, else append. -/
def dset {κ α : Type} [DecidableEq κ] (d : List (κ × α)) (k : κ) (v : α) : List (κ × α) :=
  match d with
  | [] => [(k, v)]
  | e :: es => if e.1 = k then (k, v) :: es else e :: dset es k v

/-- dict.pop k / del d[k]: remove every binding of k (dict keys are unique). -/
def dpop {κ α : Type} [DecidableEq κ] (d : List (κ × α)) (k : κ) : List (κ × α) :=
  match d with
  | [] => []
  | e :: es => if e.1 = k then dpop es k else e :: dpop es k

/-- The Game dataclass of src/main.py. -/
structure Game where
  name : String
  queue : List String
  now_playing : Option String
  turn_started_at : Option Int
  turn_accepted : Bool
  play_started_at : Option Int
  skip_counts : List (String × Nat)
  total_play_time : List (String × Int)
  session_counts : List (String × Nat)
  play_time_offset : List (String × Int)
deriving DecidableEq

/-- The process-wide mutable state of src/main.py: the games dict (as an
ordered list of Game records keyed by name), the pause flag and timestamp,
and the courtesy cooldown ledger keyed by (player, game name). -/
structure AppState where
  games : List Game
  queue_paused : Bool
  pause_started_at : Option Int
  courtesy_cooldowns : List ((String × String) × Int)
deriving DecidableEq

/-- games[name] lookup: first game with the given name. -/
def findGame : List Game → String → Option Game
  | [], _ => none
  | g :: gs, n => if g.name = n then some g else findGame gs n

/-- Write back a mutated game record into the games table (the slot is
identified by name, as in the games dict of main.py). -/
def setGame : List Game → String → Game → List Game
  | [], _, _ => []
  | g :: gs, n, g' => if g.name = n then g' :: gs else g :: setGame gs n g'

/-- Replace the named game inside the whole state. -/
def setGameState (s : AppState) (n : String) (g : Game) : AppState :=
  { s with games := setGame s.games n g }

/-- A fresh Game record, as built at process start for each configured name. -/
def initGame (n : String) : Game :=
  { name := n, queue := [], now_playing := none, turn_started_at := none,
    turn_accepted := false, play_started_at := none, skip_counts := [],
    total_play_time := [], session_counts := [], play_time_offset := [] }

/-- The initial in-memory state of main.py before any request. -/
def initState : AppState :=
  { games := GAME_NAMES.map initGame, queue_paused := false,
    pause_started_at := none, courtesy_cooldowns := [] }

/-- get_player_playing_game of main.py: name of the first game whose
now_playing equals the player, else none (the availability oracle). -/
def get_player_playing_game : List Game → String → Option String
  | [], _ => none
  | g :: gs, p => if g.now_playing = some p then some g.name else get_player_playing_game gs p

/-- Python truthiness of an optional player name (used by the admin handlers
that test the bare now_playing field): a non-empty string. -/
def truthy : Option String → Bool
  | some c => if c = "" then false else true
  | none => false

/-- get_cooldown_remaining of main.py. Returns the remaining seconds and the
state after the lazy eviction of an expired entry. -/
def get_cooldown_remaining (now : Int) (s : AppState) (player gname : String) :
    Int × AppState :=
  match dfind s.courtesy_cooldowns (player, gname) with
  | none => (0, s)
  | some expiresAt =>
    let remaining := expiresAt - now
    if remaining ≤ 0 then
      (0, { s with courtesy_cooldowns := dpop s.courtesy_cooldowns (player, gname) })
    else (remaining, s)

/-- Reset the turn fields of a game, as done at the top of advance_game. -/
def clearTurn (g : Game) : Game :=
  { g with now_playing := none, turn_started_at := none,
           turn_accepted := false, play_started_at := none }

/-- The while loop of advance_game: pop candidates off the queue front; the
first available one is selected, the unavailable ones are collected in pop
order. Returns (skipped candidates, selected candidate, rest of the queue). -/
def advance_scan (av : String → Bool) : List String → List String × Option String × List String
  | [] => ([], none, [])
  | c :: rest =>
    if av c then ([], some c, rest)
    else
      let r := advance_scan av rest
      (c :: r.1, r.2.1, r.2.2)

/-- The availability check used inside the scan of advance_game: the oracle is
consulted on the state in which this game's turn fields have already been
cleared, exactly as the source does (the loop body runs after the clearing
assignments at the top of advance_game). -/
def advance_av (s : AppState) (gname : String) (g : Game) : String → Bool :=
  fun p => (get_player_playing_game (setGameState s gname (clearTurn g)).games p).isNone

/-- The net effect of the advance_game loop on the cleared game record g0:
install the first available candidate (with a fresh turn_started_at and the
deferred candidates re-inserted at the queue front in their original order,
which is the net effect of the reversed insert loop of the source), or leave
the slot empty with the whole queue deferred. -/
def advance_pick (now : Int) (av : String → Bool) (g0 : Game) : Game :=
  match (advance_scan av g0.queue).2.1 with
  | some c =>
    { g0 with now_playing := some c, turn_started_at := some now,
              queue := (advance_scan av g0.queue).1 ++ (advance_scan av g0.queue).2.2 }
  | none =>
    { g0 with queue := (advance_scan av g0.queue).1 ++ (advance_scan av g0.queue).2.2 }

/-- advance_game of main.py. A no-op while paused; otherwise clears the turn
fields of the named game and runs the selection scan over its queue. -/
def advance_game (now : Int) (s : AppState) (gname : String) : AppState :=
  if s.queue_paused then s
  else
    match findGame s.games gname with
    | none => s
    | some g => setGameState s gname (advance_pick now (advance_av s gname g) (clearTurn g))

/-- has_available_player_in_queue of main.py. -/
def has_available_player_in_queue (s : AppState) (g : Game) : Bool :=
  g.queue.any (fun p => (get_player_playing_game s.games p).isNone)

/-- One iteration of the check-other-games loop: advance the game named n
when it is not the source game and has no occupant. -/
def rstep (now : Int) (gname : String) (acc : AppState) (n : String) : AppState :=
  if n ≠ gname ∧ (findGame acc.games n).map Game.now_playing = some none then
    advance_game now acc n
  else acc

/-- The check-other-games loop shared by skip_current_player, leave_game,
done_playing and admin kick: advance every other game with no occupant. -/
def ripple (now : Int) (s : AppState) (gname : String) : AppState :=
  (s.games.map Game.name).foldl (rstep now gname) s

/-- The skip-counter increment applied to the displaced player's record at the
top of the available-candidate branch of skip_current_player. -/
def skip_inc_game (skipped : String) (g : Game) : Game :=
  { g with skip_counts := dset g.skip_counts skipped (dget g.skip_counts skipped 0 + 1) }

/-- The skip-counter removal applied to the departing player's record in the
no-candidate branch of skip_current_player. -/
def skip_pop_game (skipped : String) (g : Game) : Game :=
  { g with skip_counts := dpop g.skip_counts skipped }

/-- The queue.insert(0, skipped) step of skip_current_player. -/
def reinsert_front (skipped : String) (g2 : Game) : Game :=
  { g2 with queue := skipped :: g2.queue }

/-- The state after the available-candidate branch of skip_current_player:
increment the skip counter of the displaced player, advance the game, then
re-insert the displaced player at queue position 0. -/
def skip_avail_state (now : Int) (s : AppState) (gname skipped : String) (g : Game) : AppState :=
  match findGame (advance_game now (setGameState s gname (skip_inc_game skipped g))
      gname).games gname with
  | some g2 =>
    setGameState (advance_game now (setGameState s gname (skip_inc_game skipped g))
      gname) gname (reinsert_front skipped g2)
  | none =>
    advance_game now (setGameState s gname (skip_inc_game skipped g)) gname

/-- The state after the no-candidate branch of skip_current_player: drop the
displaced player's skip-count entry and advance (the player departs). -/
def skip_depart_state (now : Int) (s : AppState) (gname skipped : String) (g : Game) : AppState :=
  advance_game now (setGameState s gname (skip_pop_game skipped g)) gname

/-- skip_current_player of main.py: a no-op with no occupant; otherwise the
available-candidate or departure branch followed by the ripple over the other
games. -/
def skip_current_player (now : Int) (s : AppState) (gname : String) : AppState :=
  match findGame s.games gname with
  | none => s
  | some g =>
    match g.now_playing with
    | none => s
    | some skipped =>
      if has_available_player_in_queue s g then
        ripple now (skip_avail_state now s gname skipped g) gname
      else
        ripple now (skip_depart_state now s gname skipped g) gname

/-- The per-game condition of check_expired_turns. -/
def turn_expired (now : Int) (g : Game) : Bool :=
  match g.now_playing, g.turn_started_at with
  | some _, some t => !g.turn_accepted && decide (TURN_TIMEOUT_SECONDS ≤ now - t)
  | _, _ => false

/-- One iteration of the loop of check_expired_turns. -/
def cstep (now : Int) (acc : AppState) (n : String) : AppState :=
  match findGame acc.games n with
  | some g => if turn_expired now g then skip_current_player now acc n else acc
  | none => acc

/-- check_expired_turns of main.py: no-op while paused, otherwise auto-skip
every game whose pending turn has timed out, in table order. -/
def check_expired_turns (now : Int) (s : AppState) : AppState :=
  if s.queue_paused then s
  else (s.games.map Game.name).foldl (cstep now) s

/-- The join_game handler: rejected while a courtesy cooldown is pending
(the lazy eviction performed by the cooldown read is kept); otherwise append
the player to the queue unless already queued or occupying, and advance if no
one is playing. -/
def join_game (now : Int) (s : AppState) (gname player : String) : AppState :=
  match findGame s.games gname with
  | none => s
  | some _ =>
    let r := get_cooldown_remaining now s player gname
    if 0 < r.1 then r.2
    else
      let s1 := r.2
      match findGame s1.games gname with
      | none => s1
      | some g =>
        if player ∉ g.queue ∧ g.now_playing ≠ some player then
          let s2 := setGameState s1 gname { g with queue := g.queue ++ [player] }
          if g.now_playing = none then advance_game now s2 gname else s2
        else s1

/-- The leave_game handler: remove from the queue if queued; else if the
player holds a pending (unaccepted) turn, advance and ripple; else no-op. -/
def leave_game (now : Int) (s : AppState) (gname player : String) : AppState :=
  match findGame s.games gname with
  | none => s
  | some g =>
    if player ∈ g.queue then
      setGameState s gname { g with queue := g.queue.erase player }
    else if g.now_playing = some player ∧ g.turn_accepted = false then
      ripple now (advance_game now s gname) gname
    else s

/-- The swap_places handler: swap with someone strictly below in the queue. -/
def swap_places (s : AppState) (gname player target : String) : AppState :=
  match findGame s.games gname with
  | none => s
  | some g =>
    if player ∈ g.queue ∧ target ∈ g.queue then
      let mi := g.queue.indexOf player
      let ti := g.queue.indexOf target
      if mi < ti then
        setGameState s gname
          { g with queue := (g.queue.set mi target).set ti player }
      else s
    else s

/-- The accept_turn handler of main.py. -/
def accept_turn (now : Int) (s : AppState) (gname player : String) : AppState :=
  match findGame s.games gname with
  | none => s
  | some g =>
    if g.now_playing = some player ∧ g.turn_accepted = false then
      match g.turn_started_at with
      | none => s
      | some t =>
        if now - t < TURN_TIMEOUT_SECONDS then
          setGameState s gname
            { g with turn_accepted := true, play_started_at := some now,
                     session_counts := dset g.session_counts player (dget g.session_counts player 0 + 1),
                     skip_counts := dpop g.skip_counts player }
        else s
    else s

/-- The skip_turn handler: delegates to skip_current_player when the caller
holds the pending turn. -/
def skip_turn (now : Int) (s : AppState) (gname player : String) : AppState :=
  match findGame s.games gname with
  | none => s
  | some g =>
    if g.now_playing = some player ∧ g.turn_accepted = false then
      skip_current_player now s gname
    else s

/-- The play-time credit step of done_playing: if a play was in progress, add
the elapsed seconds to the player's cumulative total. -/
def done_credit (now : Int) (player : String) (g : Game) : Game :=
  match g.play_started_at with
  | some t =>
    { g with total_play_time := dset g.total_play_time player (dget g.total_play_time player 0 + (now - t)) }
  | none => g

/-- The courtesy-cooldown step of done_playing: when the queue is empty, give
the finishing player a cooldown expiring COURTESY_COOLDOWN_SECONDS from now. -/
def done_cooldown (now : Int) (s1 : AppState) (gname player : String) (g1 : Game) : AppState :=
  if g1.queue = [] then
    { s1 with courtesy_cooldowns := dset s1.courtesy_cooldowns (player, gname) (now + COURTESY_COOLDOWN_SECONDS) }
  else s1

/-- The done_playing handler: credit the elapsed play time if a play was in
progress, set a courtesy cooldown when the queue is empty, then advance and
ripple. The gacha-ledger block of the source is omitted (see the header). -/
def done_playing (now : Int) (s : AppState) (gname player : String) : AppState :=
  match findGame s.games gname with
  | none => s
  | some g =>
    if g.now_playing = some player then
      ripple now (advance_game now
        (done_cooldown now (setGameState s gname (done_credit now player g)) gname player
          (done_credit now player g)) gname) gname
    else s

/-- One iteration of the logout loop over all games. -/
def logout_step (now : Int) (player : String) (acc : AppState) (n : String) : AppState :=
  match findGame acc.games n with
  | none => acc
  | some g =>
    let acc1 :=
      if player ∈ g.queue then setGameState acc n { g with queue := g.queue.erase player }
      else acc
    if g.now_playing = some player then advance_game now acc1 n else acc1

/-- The logout handler: for every game, remove the player from the queue and
advance the game if the player was its occupant. Session-store bookkeeping is
outside the game state. -/
def logout (now : Int) (s : AppState) (player : String) : AppState :=
  if player = "" then s
  else (s.games.map Game.name).foldl (logout_step now player) s

/-- The toggle_pause handler: flip the flag; on entering pause record the
timestamp; on leaving pause shift every non-null play_started_at forward by
the pause duration and clear the timestamp. -/
def toggle_pause (now : Int) (s : AppState) : AppState :=
  if s.queue_paused = false then
    { s with queue_paused := true, pause_started_at := some now }
  else
    match s.pause_started_at with
    | some p =>
      { s with queue_paused := false, pause_started_at := none,
               games := s.games.map (fun g =>
                 match g.play_started_at with
                 | some t => { g with play_started_at := some (t + (now - p)) }
                 | none => g) }
    | none => { s with queue_paused := false, pause_started_at := none }

/-- The admin kick handler: credit elapsed play time of a (truthy) occupant,
then advance and ripple. -/
def admin_kick_player (now : Int) (s : AppState) (gname : String) : AppState :=
  match findGame s.games gname with
  | none => s
  | some g =>
    if truthy g.now_playing then
      let g1 :=
        match g.now_playing, g.play_started_at with
        | some cur, some t =>
          { g with total_play_time := dset g.total_play_time cur (dget g.total_play_time cur 0 + (now - t)) }
        | _, _ => g
      ripple now (advance_game now (setGameState s gname g1) gname) gname
    else s

/-- The admin remove-from-queue handler. -/
def admin_remove_from_queue (s : AppState) (gname pname : String) : AppState :=
  match findGame s.games gname with
  | none => s
  | some g =>
    if pname ∈ g.queue then
      setGameState s gname
        { g with queue := g.queue.erase pname, skip_counts := dpop g.skip_counts pname }
    else s

/-- The admin bump-up handler: move a queued player one slot toward the front. -/
def admin_bump_up (s : AppState) (gname pname : String) : AppState :=
  match findGame s.games gname with
  | none => s
  | some g =>
    if pname ∈ g.queue then
      let i := g.queue.indexOf pname
      if 0 < i then
        setGameState s gname
          { g with queue := (g.queue.set i (g.queue.getD (i - 1) pname)).set (i - 1) pname }
      else s
    else s

/-- The admin bump-down handler: move a queued player one slot toward the back. -/
def admin_bump_down (s : AppState) (gname pname : String) : AppState :=
  match findGame s.games gname with
  | none => s
  | some g =>
    if pname ∈ g.queue then
      let i := g.queue.indexOf pname
      if i < g.queue.length - 1 then
        setGameState s gname
          { g with queue := (g.queue.set i (g.queue.getD (i + 1) pname)).set (i + 1) pname }
      else s
    else s

/-- The admin set-playing handler: credit the displaced (truthy) occupant's
elapsed play time, pull the target out of this game's queue, and install the
target as an accepted occupant with fresh timestamps. No other game is
consulted or modified. -/
def admin_set_playing (now : Int) (s : AppState) (gname pname : String) : AppState :=
  match findGame s.games gname with
  | none => s
  | some g =>
    let g1 :=
      match g.now_playing, g.play_started_at with
      | some cur, some t =>
        if truthy (some cur) then
          { g with total_play_time := dset g.total_play_time cur (dget g.total_play_time cur 0 + (now - t)) }
        else g
      | _, _ => g
    setGameState s gname
      { g1 with queue := g1.queue.erase pname, now_playing := some pname,
                turn_started_at := some now, turn_accepted := true,
                play_started_at := some now }

/-- The admin add-to-queue handler: same queueing rule as join_game but with
no cooldown check. -/
def admin_add_to_queue (now : Int) (s : AppState) (gname pname : String) : AppState :=
  match findGame s.games gname with
  | none => s
  | some g =>
    if pname ∉ g.queue ∧ g.now_playing ≠ some pname then
      let s2 := setGameState s gname { g with queue := g.queue ++ [pname] }
      if g.now_playing = none then advance_game now s2 gname else s2
    else s

/-- The admin reset-stats handler: snapshot every total into the offset map
and clear the session counters, for every game. -/
def admin_reset_stats (s : AppState) : AppState :=
  { s with games := s.games.map (fun g =>
      { g with play_time_offset := g.total_play_time.foldl (fun acc e => dset acc e.1 e.2) g.play_time_offset,
               session_counts := [] }) }

/-!
Basic lemmas about the table and dictionary operations.
-/

theorem findGame_name {l : List Game} {n : String} {g : Game}
    (h : findGame l n = some g) : g.name = n := by
  induction l with
  | nil => simp [findGame] at h
  | cons x xs ih =>
    by_cases hx : x.name = n
    · simp [findGame, hx] at h
      exact h ▸ hx
    · simp [findGame, hx] at h
      exact ih h

theorem findGame_mem {l : List Game} {n : String} {g : Game}
    (h : findGame l n = some g) : g ∈ l := by
  induction l with
  | nil => simp [findGame] at h
  | cons x xs ih =>
    by_cases hx : x.name = n
    · simp [findGame, hx] at h
      simp [h]
    · simp [findGame, hx] at h
      exact List.mem_cons_of_mem _ (ih h)

theorem findGame_setGame_self {l : List Game} {n : String} {g g' : Game}
    (h : findGame l n = some g) (hn : g'.name = n) :
    findGame (setGame l n g') n = some g' := by
  induction l with
  | nil => simp [findGame] at h
  | cons x xs ih =>
    by_cases hx : x.name = n
    · simp [setGame, hx, findGame, hn]
    · simp [findGame, hx] at h
      simp [setGame, hx, findGame, ih h]

theorem findGame_setGame_ne {l : List Game} {n m : String} {g' : Game}
    (hnm : n ≠ m) (hg' : g'.name = n) :
    findGame (setGame l n g') m = findGame l m := by
  induction l with
  | nil => rfl
  | cons x xs ih =>
    by_cases hx : x.name = n
    · have hxm : x.name ≠ m := by rw [hx]; exact hnm
      have hg'm : g'.name ≠ m := by rw [hg']; exact hnm
      simp [setGame, hx, findGame, hxm, hg'm, hnm]
    · by_cases hxm : x.name = m
      · simp [setGame, hx, findGame, hxm, Ne.symm hnm]
      · simp [setGame, hx, findGame, hxm, ih]

theorem setGame_map_name {l : List Game} {n : String} {g' : Game}
    (hn : g'.name = n) : (setGame l n g').map Game.name = l.map Game.name := by
  induction l with
  | nil => rfl
  | cons x xs ih =>
    by_cases hx : x.name = n
    · simp [setGame, hx, hn]
    · simp [setGame, hx, ih]

theorem mem_setGame {l : List Game} {n : String} {g' x : Game}
    (h : x ∈ setGame l n g') : x = g' ∨ x ∈ l := by
  induction l with
  | nil => simp [setGame] at h
  | cons y ys ih =>
    by_cases hy : y.name = n
    · simp [setGame, hy] at h
      rcases h with h | h
      · exact Or.inl h
      · exact Or.inr (List.mem_cons_of_mem _ h)
    · simp [setGame, hy] at h
      rcases h with h | h
      · exact Or.inr (by simp [h])
      · rcases ih h with h' | h'
        · exact Or.inl h'
        · exact Or.inr (List.mem_cons_of_mem _ h')

theorem dget_dset {κ α : Type} [DecidableEq κ] (d : List (κ × α)) (k : κ) (v : α) (v₀ : α) :
    dget (dset d k v) k v₀ = v := by
  induction d with
  | nil => simp [dset, dget]
  | cons e es ih =>
    by_cases he : e.1 = k
    · simp [dset, he, dget]
    · simp [dset, he, dget, ih]

theorem dfind_dset {κ α : Type} [DecidableEq κ] (d : List (κ × α)) (k : κ) (v : α) :
    dfind (dset d k v) k = some v := by
  induction d with
  | nil => simp [dset, dfind]
  | cons e es ih =>
    by_cases he : e.1 = k
    · simp [dset, he, dfind]
    · simp [dset, he, dfind, ih]

theorem dfind_dpop {κ α : Type} [DecidableEq κ] (d : List (κ × α)) (k : κ) :
    dfind (dpop d k) k = none := by
  induction d with
  | nil => rfl
  | cons e es ih =>
    by_cases he : e.1 = k
    · simp [dpop, he, ih]
    · simp [dpop, he, dfind, ih]

/-!
Lemmas about the availability oracle.
-/

theorem gppg_eq_none_iff {l : List Game} {p : String} :
    get_player_playing_game l p = none ↔ ∀ g ∈ l, g.now_playing ≠ some p := by
  induction l with
  | nil => simp [get_player_playing_game]
  | cons x xs ih =>
    by_cases hx : x.now_playing = some p
    · simp [get_player_playing_game, hx]
    · simp [get_player_playing_game, hx, ih]

theorem gppg_setGame {l : List Game} {n : String} {g' : Game} {p : String}
    (hnew : g'.now_playing ≠ some p)
    (hold : ∀ gOld, findGame l n = some gOld → gOld.now_playing ≠ some p) :
    get_player_playing_game (setGame l n g') p = get_player_playing_game l p := by
  induction l with
  | nil => rfl
  | cons x xs ih =>
    by_cases hx : x.name = n
    · have hxp : x.now_playing ≠ some p := hold x (by simp [findGame, hx])
      simp [setGame, hx, get_player_playing_game, hxp, hnew]
    · by_cases hxp : x.now_playing = some p
      · simp [setGame, hx, get_player_playing_game, hxp]
      · have hold' : ∀ gOld, findGame xs n = some gOld → gOld.now_playing ≠ some p := by
          intro gOld hf
          exact hold gOld (by simp [findGame, hx, hf])
        simp [setGame, hx, get_player_playing_game, hxp, ih hold']

/-!
The advance_game scan: characterisation of the while loop.
-/

theorem advance_scan_none {av : String → Bool} {q sk rem : List String}
    (h : advance_scan av q = (sk, none, rem)) :
    sk = q ∧ rem = [] ∧ ∀ p ∈ q, av p = false := by
  induction q generalizing sk rem with
  | nil =>
    simp [advance_scan] at h
    simp [h.1, h.2]
  | cons c rest ih =>
    by_cases hc : av c
    · simp [advance_scan, hc] at h
    · rcases hrec : advance_scan av rest with ⟨sk', sel', rem'⟩
      simp [advance_scan, hc, hrec] at h
      obtain ⟨hsk, hsel, hrem⟩ := h
      have hr := @ih sk' rem' (by rw [hrec, hsel])
      refine ⟨?_, ?_, ?_⟩
      · rw [← hsk, hr.1]
      · rw [← hrem, hr.2.1]
      · intro p hp
        rcases List.mem_cons.mp hp with h' | h'
        · rw [h']; exact Bool.eq_false_iff.mpr hc
        · exact hr.2.2 p h'

theorem advance_scan_some {av : String → Bool} {q sk rem : List String} {c : String}
    (h : advance_scan av q = (sk, some c, rem)) :
    q = sk ++ c :: rem ∧ (∀ p ∈ sk, av p = false) ∧ av c = true := by
  induction q generalizing sk rem with
  | nil => simp [advance_scan] at h
  | cons x rest ih =>
    by_cases hx : av x
    · simp [advance_scan, hx] at h
      obtain ⟨hsk, hc, hrem⟩ := h
      subst hsk; subst hc; subst hrem
      exact ⟨by simp, by simp, hx⟩
    · rcases hrec : advance_scan av rest with ⟨sk', sel', rem'⟩
      simp [advance_scan, hx, hrec] at h
      obtain ⟨hsk, hsel, hrem⟩ := h
      have hr := @ih sk' rem' (by rw [hrec, hsel, hrem])
      refine ⟨?_, ?_, hr.2.2⟩
      · rw [← hsk]
        simp [hr.1, hrem]
      · intro p hp
        rw [← hsk] at hp
        rcases List.mem_cons.mp hp with h' | h'
        · rw [h']; exact Bool.eq_false_iff.mpr hx
        · exact hr.2.1 p h'


/-!
State-level lemmas about advance_game and the ripple loop.
-/

theorem advance_pick_name (now : Int) (av : String → Bool) (g0 : Game) :
    (advance_pick now av g0).name = g0.name := by
  unfold advance_pick
  cases (advance_scan av g0.queue).2.1 <;> rfl

theorem advance_pick_stats (now : Int) (av : String → Bool) (g0 : Game) :
    (advance_pick now av g0).skip_counts = g0.skip_counts ∧
    (advance_pick now av g0).total_play_time = g0.total_play_time ∧
    (advance_pick now av g0).session_counts = g0.session_counts ∧
    (advance_pick now av g0).play_time_offset = g0.play_time_offset := by
  unfold advance_pick
  cases (advance_scan av g0.queue).2.1 <;> exact ⟨rfl, rfl, rfl, rfl⟩

theorem advance_pick_fresh (now : Int) (av : String → Bool) (g0 : Game)
    (h0 : g0.now_playing = none) :
    (advance_pick now av g0).now_playing = none ∨
    (advance_pick now av g0).turn_started_at = some now := by
  unfold advance_pick
  cases (advance_scan av g0.queue).2.1 with
  | none => exact Or.inl h0
  | some c => exact Or.inr rfl

theorem advance_game_eq_of_none {now : Int} {s : AppState} {gname : String}
    (hp : ¬s.queue_paused = true) (hf : findGame s.games gname = none) :
    advance_game now s gname = s := by
  unfold advance_game
  rw [if_neg hp, hf]

theorem advance_game_eq_of_some {now : Int} {s : AppState} {gname : String} {g : Game}
    (hp : ¬s.queue_paused = true) (hf : findGame s.games gname = some g) :
    advance_game now s gname =
      setGameState s gname (advance_pick now (advance_av s gname g) (clearTurn g)) := by
  unfold advance_game
  rw [if_neg hp, hf]

theorem advance_game_queue_paused (now : Int) (s : AppState) (gname : String) :
    (advance_game now s gname).queue_paused = s.queue_paused := by
  unfold advance_game
  by_cases hp : s.queue_paused
  · rw [if_pos hp]
  · rw [if_neg hp]
    cases findGame s.games gname <;> rfl

theorem advance_game_pause_started (now : Int) (s : AppState) (gname : String) :
    (advance_game now s gname).pause_started_at = s.pause_started_at := by
  unfold advance_game
  by_cases hp : s.queue_paused
  · rw [if_pos hp]
  · rw [if_neg hp]
    cases findGame s.games gname <;> rfl

theorem advance_game_cooldowns (now : Int) (s : AppState) (gname : String) :
    (advance_game now s gname).courtesy_cooldowns = s.courtesy_cooldowns := by
  unfold advance_game
  by_cases hp : s.queue_paused
  · rw [if_pos hp]
  · rw [if_neg hp]
    cases findGame s.games gname <;> rfl

theorem findGame_advance_ne {now : Int} {s : AppState} {gname m : String}
    (h : m ≠ gname) :
    findGame (advance_game now s gname).games m = findGame s.games m := by
  unfold advance_game
  by_cases hp : s.queue_paused
  · rw [if_pos hp]
  · rw [if_neg hp]
    cases hf : findGame s.games gname with
    | none => rfl
    | some g =>
      have hname : g.name = gname := findGame_name hf
      exact findGame_setGame_ne (Ne.symm h)
        (by rw [advance_pick_name]; simp [clearTurn, hname])

theorem findGame_advance_self {now : Int} {s : AppState} {gname : String} {g : Game}
    (hf : findGame s.games gname = some g) :
    findGame (advance_game now s gname).games gname =
      if s.queue_paused then some g
      else some (advance_pick now (advance_av s gname g) (clearTurn g)) := by
  by_cases hp : s.queue_paused
  · unfold advance_game
    rw [if_pos hp, if_pos hp, hf]
  · rw [advance_game_eq_of_some hp hf, if_neg hp]
    simp only [setGameState]
    exact findGame_setGame_self hf
      (by rw [advance_pick_name]; simp [clearTurn, findGame_name hf])

theorem advance_game_shape {now : Int} {s : AppState} {gname n : String} {g'' : Game}
    (h : findGame (advance_game now s gname).games n = some g'') :
    findGame s.games n = some g'' ∨ g''.now_playing = none ∨ g''.turn_started_at = some now := by
  by_cases hn : n = gname
  · subst hn
    by_cases hp : s.queue_paused
    · unfold advance_game at h
      rw [if_pos hp] at h
      exact Or.inl h
    · cases hf : findGame s.games n with
      | none =>
        rw [advance_game_eq_of_none hp hf, hf] at h
        exact Or.inl h
      | some g =>
        rw [advance_game_eq_of_some hp hf] at h
        simp only [setGameState] at h
        rw [findGame_setGame_self hf
          (by rw [advance_pick_name]; simp [clearTurn, findGame_name hf])] at h
        obtain rfl : _ = g'' := Option.some.inj h
        exact Or.inr (advance_pick_fresh now (advance_av s n g) (clearTurn g) rfl)
  · rw [findGame_advance_ne hn] at h
    exact Or.inl h

theorem foldl_rstep_findGame_self {now : Int} {gname : String} :
    ∀ (ns : List String) (s : AppState),
      findGame (List.foldl (rstep now gname) s ns).games gname = findGame s.games gname := by
  intro ns
  induction ns with
  | nil => intro s; rfl
  | cons n ns ih =>
    intro s
    rw [List.foldl_cons, ih]
    by_cases hc : n ≠ gname ∧ (findGame s.games n).map Game.now_playing = some none
    · rw [rstep, if_pos hc]
      exact findGame_advance_ne (Ne.symm hc.1)
    · rw [rstep, if_neg hc]

theorem ripple_findGame_self {now : Int} {s : AppState} {gname : String} :
    findGame (ripple now s gname).games gname = findGame s.games gname :=
  foldl_rstep_findGame_self _ s

theorem foldl_rstep_queue_paused {now : Int} {gname : String} :
    ∀ (ns : List String) (s : AppState),
      (List.foldl (rstep now gname) s ns).queue_paused = s.queue_paused := by
  intro ns
  induction ns with
  | nil => intro s; rfl
  | cons n ns ih =>
    intro s
    rw [List.foldl_cons, ih]
    by_cases hc : n ≠ gname ∧ (findGame s.games n).map Game.now_playing = some none
    · rw [rstep, if_pos hc, advance_game_queue_paused]
    · rw [rstep, if_neg hc]

theorem foldl_rstep_cooldowns {now : Int} {gname : String} :
    ∀ (ns : List String) (s : AppState),
      (List.foldl (rstep now gname) s ns).courtesy_cooldowns = s.courtesy_cooldowns := by
  intro ns
  induction ns with
  | nil => intro s; rfl
  | cons n ns ih =>
    intro s
    rw [List.foldl_cons, ih]
    by_cases hc : n ≠ gname ∧ (findGame s.games n).map Game.now_playing = some none
    · rw [rstep, if_pos hc, advance_game_cooldowns]
    · rw [rstep, if_neg hc]

theorem rstep_shape {now : Int} {gname n m : String} {s : AppState} {g'' : Game}
    (h : findGame (rstep now gname s n).games m = some g'') :
    findGame s.games m = some g'' ∨ g''.now_playing = none ∨ g''.turn_started_at = some now := by
  by_cases hc : n ≠ gname ∧ (findGame s.games n).map Game.now_playing = some none
  · rw [rstep, if_pos hc] at h
    exact advance_game_shape h
  · rw [rstep, if_neg hc] at h
    exact Or.inl h

theorem foldl_rstep_shape {now : Int} {gname : String} :
    ∀ (ns : List String) (s : AppState) (m : String) (g'' : Game),
      findGame (List.foldl (rstep now gname) s ns).games m = some g'' →
      findGame s.games m = some g'' ∨ g''.now_playing = none ∨ g''.turn_started_at = some now := by
  intro ns
  induction ns with
  | nil => intro s m g'' h; exact Or.inl h
  | cons n ns ih =>
    intro s m g'' h
    rw [List.foldl_cons] at h
    rcases ih (rstep now gname s n) m g'' h with h' | h' | h'
    · exact rstep_shape h'
    · exact Or.inr (Or.inl h')
    · exact Or.inr (Or.inr h')

/-!
Further helper lemmas: mapped tables, play-time preservation, cooldown reads.
-/

theorem findGame_map {l : List Game} {n : String} {f : Game → Game}
    (hf : ∀ g, (f g).name = g.name) :
    findGame (l.map f) n = (findGame l n).map f := by
  induction l with
  | nil => rfl
  | cons x xs ih =>
    by_cases hx : x.name = n
    · simp [findGame, hf, hx]
    · simp [findGame, hf, hx, ih]

theorem setGame_map_tpt {l : List Game} {n : String} {g g' : Game}
    (hf : findGame l n = some g) (heq : g'.total_play_time = g.total_play_time) :
    (setGame l n g').map Game.total_play_time = l.map Game.total_play_time := by
  induction l with
  | nil => rfl
  | cons x xs ih =>
    by_cases hx : x.name = n
    · simp only [findGame, hx, if_pos] at hf
      obtain rfl : x = g := Option.some.inj hf
      simp [setGame, hx, heq]
    · simp only [findGame, hx, if_neg, if_false] at hf
      simp [setGame, hx, ih hf]

theorem advance_map_tpt (now : Int) (s : AppState) (gname : String) :
    (advance_game now s gname).games.map Game.total_play_time =
      s.games.map Game.total_play_time := by
  by_cases hp : s.queue_paused
  · unfold advance_game
    rw [if_pos hp]
  · cases hf : findGame s.games gname with
    | none => rw [advance_game_eq_of_none hp hf]
    | some g =>
      rw [advance_game_eq_of_some hp hf]
      exact setGame_map_tpt hf
        ((advance_pick_stats _ _ _).2.1.trans (by simp [clearTurn]))

theorem gcr_pos_snd {now : Int} {s : AppState} {player gname : String}
    (h : 0 < (get_cooldown_remaining now s player gname).1) :
    (get_cooldown_remaining now s player gname).2 = s := by
  unfold get_cooldown_remaining at h ⊢
  cases hd : dfind s.courtesy_cooldowns (player, gname) with
  | none => rfl
  | some x =>
    rw [hd] at h
    by_cases hle : x ≤ now
    · simp [hle] at h
    · simp [hle]

theorem foldl_cstep_id {now : Int} :
    ∀ (ns : List String) (s : AppState),
      (∀ n ∈ ns, ∀ g, findGame s.games n = some g → turn_expired now g = false) →
      List.foldl (cstep now) s ns = s := by
  intro ns
  induction ns with
  | nil => intro s _; rfl
  | cons n ns ih =>
    intro s h
    rw [List.foldl_cons]
    have hstep : cstep now s n = s := by
      unfold cstep
      cases hf : findGame s.games n with
      | none => rfl
      | some g =>
        have hx := h n (by simp) g hf
        simp [hx]
    rw [hstep]
    exact ih s (fun m hm g hf => h m (List.mem_cons_of_mem _ hm) g hf)

theorem skip_avail_findGame_ne {now : Int} {s : AppState} {gname n skipped : String} {g : Game}
    (hne : n ≠ gname) (hgname : g.name = gname) :
    findGame (skip_avail_state now s gname skipped g).games n = findGame s.games n := by
  unfold skip_avail_state
  cases h2 : findGame (advance_game now (setGameState s gname (skip_inc_game skipped g))
      gname).games gname with
  | none =>
    rw [findGame_advance_ne hne]
    simp only [setGameState]
    exact findGame_setGame_ne (Ne.symm hne) (by simp [skip_inc_game, hgname])
  | some g2 =>
    simp only [setGameState]
    rw [findGame_setGame_ne (Ne.symm hne) (by simpa [reinsert_front] using findGame_name h2)]
    rw [findGame_advance_ne hne]
    exact findGame_setGame_ne (Ne.symm hne) (by simp [skip_inc_game, hgname])

theorem skip_depart_findGame_ne {now : Int} {s : AppState} {gname n skipped : String} {g : Game}
    (hne : n ≠ gname) (hgname : g.name = gname) :
    findGame (skip_depart_state now s gname skipped g).games n = findGame s.games n := by
  unfold skip_depart_state
  rw [findGame_advance_ne hne]
  simp only [setGameState]
  exact findGame_setGame_ne (Ne.symm hne) (by simp [skip_pop_game, hgname])

theorem skip_shape {now : Int} {s : AppState} {gname n : String} {g'' : Game}
    (hne : n ≠ gname)
    (h : findGame (skip_current_player now s gname).games n = some g'') :
    findGame s.games n = some g'' ∨ g''.now_playing = none ∨ g''.turn_started_at = some now := by
  unfold skip_current_player at h
  cases hfg : findGame s.games gname with
  | none =>
    simp only [hfg] at h
    exact Or.inl h
  | some g =>
    have hname : g.name = gname := findGame_name hfg
    cases hnp : g.now_playing with
    | none =>
      simp only [hfg, hnp] at h
      exact Or.inl h
    | some skipped =>
      simp only [hfg, hnp, ripple] at h
      by_cases ha : has_available_player_in_queue s g
      · simp only [ha, eq_self_iff_true, if_true] at h
        rcases foldl_rstep_shape _ _ _ _ h with h' | h' | h'
        · rw [skip_avail_findGame_ne hne hname] at h'
          exact Or.inl h'
        · exact Or.inr (Or.inl h')
        · exact Or.inr (Or.inr h')
      · have ha' : has_available_player_in_queue s g = false := Bool.eq_false_iff.mpr ha
        simp only [ha', Bool.false_eq_true, if_false] at h
        rcases foldl_rstep_shape _ _ _ _ h with h' | h' | h'
        · rw [skip_depart_findGame_ne hne hname] at h'
          exact Or.inl h'
        · exact Or.inr (Or.inl h')
        · exact Or.inr (Or.inr h')

/-!
Claim theorems.
-/

/-- The state reached by: A joins Maimai (becoming pending occupant), B joins
Maimai (queueing), the admin pauses, and then A manually skips. The skip
handler has no pause guard while advance_game is a pause no-op, so the skip
re-inserts A into the queue while A is still the occupant. -/
def pausedSkipTrace : AppState :=
  skip_turn 3
    (toggle_pause 2 (join_game 1 (join_game 0 initState "Maimai" "A") "Maimai" "B"))
    "Maimai" "A"

/-- C1: the claimed invariant that a game's occupant is never simultaneously
present in that game's queue is violated by a reachable state: after the
paused-skip trace, Maimai's occupant is A and A is also at the front of
Maimai's queue. -/
theorem skip_while_paused_puts_occupant_in_queue :
    (findGame pausedSkipTrace.games "Maimai").map Game.now_playing = some (some "A") ∧
    (findGame pausedSkipTrace.games "Maimai").map Game.queue = some ["A", "B"] := by
  constructor <;> decide

/-- The state reached by: A joins Maimai (becoming its occupant), then the
admin force-assigns A as the occupant of Chunithm. admin_set_playing never
consults the other games, so A ends up occupying two games at once. -/
def doubleOccupancyTrace : AppState :=
  admin_set_playing 1 (join_game 0 initState "Maimai" "A") "Chunithm" "A"

/-- C2: the claimed invariant that each player occupies at most one game at a
time is violated through the administrative force-assign: after the trace, A
is the occupant of both Maimai and Chunithm simultaneously. -/
theorem admin_set_playing_double_occupancy :
    (findGame doubleOccupancyTrace.games "Maimai").map Game.now_playing = some (some "A") ∧
    (findGame doubleOccupancyTrace.games "Chunithm").map Game.now_playing = some (some "A") := by
  constructor <;> decide

/-- C4: accept_turn mutates the state if and only if the player is the
current occupant, the turn is not yet accepted, a turn start time is set and
the elapsed time is strictly below the timeout; at or past the boundary (and
under any other failed precondition) the state is returned unchanged; on
success the turn is accepted, play_started_at is set to now, the player's
session counter is incremented and their skip-count entry is removed. -/
theorem accept_turn_iff_valid (now : Int) (s : AppState) (gname player : String) (g : Game)
    (hg : findGame s.games gname = some g) :
    ((g.now_playing = some player ∧ g.turn_accepted = false ∧
        ∃ t, g.turn_started_at = some t ∧ now - t < TURN_TIMEOUT_SECONDS) →
      accept_turn now s gname player =
        setGameState s gname
          { g with turn_accepted := true, play_started_at := some now,
                   session_counts := dset g.session_counts player (dget g.session_counts player 0 + 1),
                   skip_counts := dpop g.skip_counts player } ∧
      accept_turn now s gname player ≠ s) ∧
    (¬(g.now_playing = some player ∧ g.turn_accepted = false ∧
        ∃ t, g.turn_started_at = some t ∧ now - t < TURN_TIMEOUT_SECONDS) →
      accept_turn now s gname player = s) := by
  constructor
  · rintro ⟨h1, h2, t, ht, hlt⟩
    have heq : accept_turn now s gname player =
        setGameState s gname
          { g with turn_accepted := true, play_started_at := some now,
                   session_counts := dset g.session_counts player (dget g.session_counts player 0 + 1),
                   skip_counts := dpop g.skip_counts player } := by
      unfold accept_turn
      simp only [hg]
      rw [if_pos ⟨h1, h2⟩, ht]
      simp only [hlt, if_pos]
    refine ⟨heq, ?_⟩
    intro hcontra
    rw [heq] at hcontra
    have hself := @findGame_setGame_self s.games gname g
      { g with turn_accepted := true, play_started_at := some now,
               session_counts := dset g.session_counts player (dget g.session_counts player 0 + 1),
               skip_counts := dpop g.skip_counts player } hg
      (by simpa using findGame_name hg)
    have hfg' := congrArg (fun st => findGame st.games gname) hcontra
    simp only [setGameState] at hfg' hself
    rw [hself, hg] at hfg'
    have hge := Option.some.inj hfg'
    have hacc := congrArg Game.turn_accepted hge
    simp [h2] at hacc
  · intro hnc
    unfold accept_turn
    simp only [hg]
    by_cases h12 : g.now_playing = some player ∧ g.turn_accepted = false
    · rw [if_pos h12]
      cases ht : g.turn_started_at with
      | none => rfl
      | some t =>
        by_cases hlt : now - t < TURN_TIMEOUT_SECONDS
        · exact absurd ⟨h12.1, h12.2, t, ht, hlt⟩ hnc
        · simp only [hlt, if_neg, if_false]
    · rw [if_neg h12]

/-- A pending-occupant game record used to instantiate the accept_turn theorem. -/
def acceptWitnessGame : Game :=
  { initGame "Maimai" with now_playing := some "K", turn_started_at := some 0, queue := ["L"] }

/-- A pending-occupant state used to instantiate the accept_turn theorem. -/
def acceptWitnessState : AppState :=
  { games := [acceptWitnessGame], queue_paused := false, pause_started_at := none,
    courtesy_cooldowns := [] }

/-- Witness for C4: at ten seconds into the pending turn the acceptance
succeeds and visibly mutates the state. -/
theorem accept_turn_iff_valid_witness :
    findGame acceptWitnessState.games "Maimai" = some acceptWitnessGame ∧
    accept_turn 10 acceptWitnessState "Maimai" "K" ≠ acceptWitnessState :=
  ⟨by decide,
    ((accept_turn_iff_valid 10 acceptWitnessState "Maimai" "K" acceptWitnessGame (by decide)).1
      ⟨by decide, by decide, 0, by decide, by decide⟩).2⟩

/-- An occupant with an accepted turn who is also (in violation of the queue
invariant) present in the game's own queue. -/
def leaveCexGame : Game :=
  { initGame "Maimai" with
      now_playing := some "A", turn_accepted := true,
      turn_started_at := some 0, play_started_at := some 0, queue := ["A"] }

/-- The state holding leaveCexGame. -/
def leaveCexState : AppState :=
  { games := [leaveCexGame], queue_paused := false, pause_started_at := none,
    courtesy_cooldowns := [] }

/-- Counterexample for C10: leave_game is claimed to be a no-op whenever the
caller is the occupant with an accepted turn, but when the occupant also sits
in the game's queue (reachable through the paused-skip defect), leave removes
them from the queue and so mutates the state. -/
theorem leave_accepted_occupant_not_noop :
    leaveCexGame.now_playing = some "A" ∧ leaveCexGame.turn_accepted = true ∧
    leave_game 5 leaveCexState "Maimai" "A" ≠ leaveCexState := by
  refine ⟨by decide, by decide, by decide⟩

/-- C10 (amended): provided the caller is not in the game's queue, leave_game
is a no-op when the caller holds an accepted turn, advances (with the ripple
over other games) exactly when the caller holds a pending unaccepted turn,
and is a no-op when the caller is not the occupant at all. -/
theorem leave_game_spec (now : Int) (s : AppState) (gname player : String) (g : Game)
    (hg : findGame s.games gname = some g) (hnq : player ∉ g.queue) :
    (g.now_playing = some player ∧ g.turn_accepted = true →
      leave_game now s gname player = s) ∧
    (g.now_playing = some player ∧ g.turn_accepted = false →
      leave_game now s gname player = ripple now (advance_game now s gname) gname) ∧
    (g.now_playing ≠ some player → leave_game now s gname player = s) := by
  refine ⟨?_, ?_, ?_⟩
  · rintro ⟨h1, h2⟩
    unfold leave_game
    simp only [hg]
    rw [if_neg hnq, if_neg (by simp [h2])]
  · rintro ⟨h1, h2⟩
    unfold leave_game
    simp only [hg]
    rw [if_neg hnq, if_pos ⟨h1, h2⟩]
  · intro h1
    unfold leave_game
    simp only [hg]
    rw [if_neg hnq, if_neg (fun hc => h1 hc.1)]

/-- An occupant with an accepted turn and one pending candidate waiting. -/
def leaveWitnessGame : Game :=
  { initGame "Maimai" with
      now_playing := some "A", turn_accepted := true,
      play_started_at := some 0, queue := ["B"] }

/-- The state holding leaveWitnessGame. -/
def leaveWitnessState : AppState :=
  { games := [leaveWitnessGame], queue_paused := false, pause_started_at := none,
    courtesy_cooldowns := [] }

/-- Witness for the amended C10: an actively playing occupant who is not in
the queue cannot relinquish the slot via leave. -/
theorem leave_game_spec_witness :
    findGame leaveWitnessState.games "Maimai" = some leaveWitnessGame ∧
    "A" ∉ leaveWitnessGame.queue ∧
    leave_game 5 leaveWitnessState "Maimai" "A" = leaveWitnessState :=
  ⟨by decide, by decide,
    (leave_game_spec 5 leaveWitnessState "Maimai" "A" leaveWitnessGame (by decide)
      (by decide)).1 ⟨by decide, by decide⟩⟩

/-- A paused state with an accepted occupant and one queued player. -/
def advPausedCexGame : Game :=
  { initGame "Maimai" with
      now_playing := some "A", turn_accepted := true,
      turn_started_at := some 0, play_started_at := some 0, queue := ["B"] }

/-- The paused state holding advPausedCexGame. -/
def advPausedCexState : AppState :=
  { games := [advPausedCexGame], queue_paused := true, pause_started_at := some 0,
    courtesy_cooldowns := [] }

/-- Counterexample for C3 as frozen over every game state: on a paused state
advance_game is the guarded identity, so the occupant A stays in the slot and
the queue is returned unchanged; the multiset of the occupant together with
the resulting queue is then not a permutation of the original queue, so the
claimed no-drop equation fails on this state. -/
theorem advance_game_paused_cex :
    advPausedCexState.queue_paused = true ∧
    (findGame (advance_game 5 advPausedCexState "Maimai").games "Maimai").map
      Game.now_playing = some (some "A") ∧
    (findGame (advance_game 5 advPausedCexState "Maimai").games "Maimai").map
      Game.queue = some ["B"] ∧
    ¬ (("A" :: ["B"]).Perm advPausedCexGame.queue) := by
  refine ⟨by decide, by decide, by decide, ?_⟩
  intro h
  have hlen := h.length_eq
  simp [advPausedCexGame, initGame] at hlen

/-- C3 (amended to non-paused states, on which the scan actually runs;
advance_game on a paused state is a guarded no-op that keeps the occupant):
advance_game never drops a player: the queue
splits as the deferred (unavailable) candidates followed by the tail, the new
occupant (when some candidate was available) together with the new queue is a
permutation of the old queue, the deferred candidates keep their relative
order at the front, and with no available candidate the queue is returned
intact with the slot empty. -/
theorem advance_game_no_drop (now : Int) (s : AppState) (gname : String) (g : Game)
    (hp : s.queue_paused = false) (hg : findGame s.games gname = some g) :
    ∃ g', findGame (advance_game now s gname).games gname = some g' ∧
      ∃ defer rest,
        g'.queue = defer ++ rest ∧
        (∀ p ∈ defer, advance_av s gname g p = false) ∧
        ((∃ c, g'.now_playing = some c ∧ advance_av s gname g c = true ∧
            g.queue = defer ++ c :: rest ∧ (c :: g'.queue).Perm g.queue) ∨
          (g'.now_playing = none ∧ defer = g.queue ∧ rest = [] ∧ g'.queue = g.queue)) := by
  have hp' : ¬s.queue_paused = true := by simp [hp]
  have hname : g.name = gname := findGame_name hg
  rw [advance_game_eq_of_some hp' hg]
  simp only [setGameState]
  refine ⟨advance_pick now (advance_av s gname g) (clearTurn g),
    findGame_setGame_self hg (by rw [advance_pick_name]; simp [clearTurn, hname]), ?_⟩
  rcases hsc : advance_scan (advance_av s gname g) g.queue with ⟨sk, sel, rem⟩
  cases sel with
  | some c =>
    obtain ⟨hq, hdef, hc⟩ := advance_scan_some hsc
    refine ⟨sk, rem, by simp [advance_pick, clearTurn, hsc], hdef, Or.inl ⟨c, ?_, hc, hq, ?_⟩⟩
    · simp [advance_pick, clearTurn, hsc]
    · have hperm : (c :: (sk ++ rem)).Perm (sk ++ c :: rem) := List.perm_middle.symm
      simp only [advance_pick, clearTurn, hsc]
      rw [hq]
      exact hperm
  | none =>
    obtain ⟨hsk, hrem, hall⟩ := advance_scan_none hsc
    refine ⟨sk, rem, by simp [advance_pick, clearTurn, hsc], ?_, Or.inr ⟨?_, hsk, hrem, ?_⟩⟩
    · intro p hps
      exact hall p (by rw [← hsk]; exact hps)
    · simp [advance_pick, clearTurn, hsc]
    · simp [advance_pick, clearTurn, hsc, hsk, hrem]

/-- A three-game state with two players busy elsewhere at the head of the
third queue, instantiating the advancement theorem. -/
def advanceWitnessState : AppState :=
  { games :=
      [{ initGame "Maimai" with now_playing := some "Alice", turn_accepted := true },
       { initGame "Chunithm" with now_playing := some "Bob", turn_accepted := true },
       { initGame "Wacca" with queue := ["Alice", "Bob", "Carol", "Dave"] }],
    queue_paused := false, pause_started_at := none, courtesy_cooldowns := [] }

/-- The Wacca record inside advanceWitnessState. -/
def advanceWitnessGame : Game :=
  { initGame "Wacca" with queue := ["Alice", "Bob", "Carol", "Dave"] }

/-- Witness for C3 at a state where the scan defers two busy players. -/
theorem advance_game_no_drop_witness :
    advanceWitnessState.queue_paused = false ∧
    findGame advanceWitnessState.games "Wacca" = some advanceWitnessGame ∧
    ∃ g', findGame (advance_game 9 advanceWitnessState "Wacca").games "Wacca" = some g' ∧
      ∃ defer rest,
        g'.queue = defer ++ rest ∧
        (∀ p ∈ defer, advance_av advanceWitnessState "Wacca" advanceWitnessGame p = false) ∧
        ((∃ c, g'.now_playing = some c ∧
            advance_av advanceWitnessState "Wacca" advanceWitnessGame c = true ∧
            advanceWitnessGame.queue = defer ++ c :: rest ∧
            (c :: g'.queue).Perm advanceWitnessGame.queue) ∨
          (g'.now_playing = none ∧ defer = advanceWitnessGame.queue ∧ rest = [] ∧
            g'.queue = advanceWitnessGame.queue)) :=
  ⟨by decide, by decide,
    advance_game_no_drop 9 advanceWitnessState "Wacca" advanceWitnessGame (by decide) (by decide)⟩

theorem logout_step_map_tpt (now : Int) (player : String) (acc : AppState) (n : String) :
    (logout_step now player acc n).games.map Game.total_play_time =
      acc.games.map Game.total_play_time := by
  unfold logout_step
  cases hf : findGame acc.games n with
  | none => rfl
  | some g =>
    by_cases hq : player ∈ g.queue <;> by_cases hnp : g.now_playing = some player <;>
      simp [hq, hnp, advance_map_tpt, setGameState] <;>
      exact setGame_map_tpt hf rfl

theorem foldl_logout_map_tpt (now : Int) (player : String) :
    ∀ (ns : List String) (acc : AppState),
      (List.foldl (logout_step now player) acc ns).games.map Game.total_play_time =
        acc.games.map Game.total_play_time := by
  intro ns
  induction ns with
  | nil => intro acc; rfl
  | cons n ns ih =>
    intro acc
    rw [List.foldl_cons, ih, logout_step_map_tpt]

/-- C9: logout never credits play time: for every state and player, the
total_play_time mapping of every game is left exactly as it was, even when
the logging-out player held an accepted turn in progress (contrast
done_playing and the admin kick, which add the elapsed play time). -/
theorem logout_preserves_total_play_time (now : Int) (s : AppState) (player : String) :
    (logout now s player).games.map Game.total_play_time =
      s.games.map Game.total_play_time := by
  unfold logout
  by_cases hp : player = ""
  · rw [if_pos hp]
  · rw [if_neg hp]
    exact foldl_logout_map_tpt now player _ s

theorem ripple_cooldowns {now : Int} {s : AppState} {gname : String} :
    (ripple now s gname).courtesy_cooldowns = s.courtesy_cooldowns :=
  foldl_rstep_cooldowns _ s

theorem done_credit_name (now : Int) (player : String) (g : Game) :
    (done_credit now player g).name = g.name := by
  unfold done_credit
  cases g.play_started_at <;> rfl

theorem done_credit_now_playing (now : Int) (player : String) (g : Game) :
    (done_credit now player g).now_playing = g.now_playing := by
  unfold done_credit
  cases g.play_started_at <;> rfl

theorem done_credit_queue (now : Int) (player : String) (g : Game) :
    (done_credit now player g).queue = g.queue := by
  unfold done_credit
  cases g.play_started_at <;> rfl

theorem done_cooldown_games (now : Int) (s1 : AppState) (gname player : String) (g1 : Game) :
    (done_cooldown now s1 gname player g1).games = s1.games := by
  unfold done_cooldown
  split <;> rfl

theorem done_cooldown_paused (now : Int) (s1 : AppState) (gname player : String) (g1 : Game) :
    (done_cooldown now s1 gname player g1).queue_paused = s1.queue_paused := by
  unfold done_cooldown
  split <;> rfl

theorem findGame_advance_stats {now : Int} {s : AppState} {gname : String} {g : Game}
    (hf : findGame s.games gname = some g) :
    ∃ gf, findGame (advance_game now s gname).games gname = some gf ∧
      gf.skip_counts = g.skip_counts ∧ gf.total_play_time = g.total_play_time := by
  rw [findGame_advance_self hf]
  by_cases hp : s.queue_paused
  · rw [if_pos hp]
    exact ⟨g, rfl, rfl, rfl⟩
  · rw [if_neg hp]
    refine ⟨_, rfl, ?_, ?_⟩
    · exact (advance_pick_stats _ _ _).1.trans (by simp [clearTurn])
    · exact (advance_pick_stats _ _ _).2.1.trans (by simp [clearTurn])

theorem done_playing_credits {now : Int} {s : AppState} {gname player : String} {g : Game}
    {t : Int} (hg : findGame s.games gname = some g) (hnp : g.now_playing = some player)
    (hps : g.play_started_at = some t) :
    ∃ gf, findGame (done_playing now s gname player).games gname = some gf ∧
      dget gf.total_play_time player 0 = dget g.total_play_time player 0 + (now - t) := by
  unfold done_playing
  simp only [hg, hnp, eq_self_iff_true, if_true, ripple]
  rw [foldl_rstep_findGame_self]
  have hfind : findGame (done_cooldown now (setGameState s gname (done_credit now player g))
      gname player (done_credit now player g)).games gname = some (done_credit now player g) := by
    rw [done_cooldown_games]
    simp only [setGameState]
    exact findGame_setGame_self hg (by rw [done_credit_name]; exact findGame_name hg)
  obtain ⟨gf, hgf, _, htpt⟩ := @findGame_advance_stats now _ _ _ hfind
  refine ⟨gf, hgf, ?_⟩
  rw [htpt]
  unfold done_credit
  rw [hps]
  simp [dget_dset]

/-- C7: leaving pause with a recorded pause start shifts the play_started_at
of every game that has one forward by the pause duration, leaves games with
no play in progress untouched, clears the pause timestamp, and consequently a
finish immediately after the resume credits a play duration from which the
paused interval is excluded (pause entry minus play start). -/
theorem toggle_pause_resume (now p : Int) (s : AppState)
    (hqp : s.queue_paused = true) (hps : s.pause_started_at = some p) :
    toggle_pause now s =
      { s with queue_paused := false, pause_started_at := none,
               games := s.games.map (fun g =>
                 match g.play_started_at with
                 | some t => { g with play_started_at := some (t + (now - p)) }
                 | none => g) } ∧
    (∀ gname g player t, findGame s.games gname = some g → g.now_playing = some player →
      g.play_started_at = some t →
      ∃ gf, findGame (done_playing now (toggle_pause now s) gname player).games gname =
          some gf ∧
        dget gf.total_play_time player 0 = dget g.total_play_time player 0 + (p - t)) := by
  have h1 : toggle_pause now s =
      { s with queue_paused := false, pause_started_at := none,
               games := s.games.map (fun g =>
                 match g.play_started_at with
                 | some t => { g with play_started_at := some (t + (now - p)) }
                 | none => g) } := by
    unfold toggle_pause
    rw [if_neg (by simp [hqp]), hps]
  refine ⟨h1, ?_⟩
  intro gname g player t hg hnp hpst
  have hshift : findGame (toggle_pause now s).games gname =
      some { g with play_started_at := some (t + (now - p)) } := by
    rw [h1]
    have := findGame_map (l := s.games) (n := gname)
      (f := fun g => match g.play_started_at with
            | some t => { g with play_started_at := some (t + (now - p)) }
            | none => g)
      (fun g => by cases hc : g.play_started_at <;> simp [hc])
    rw [this, hg]
    simp [hpst]
  obtain ⟨gf, hgf, heq⟩ := done_playing_credits hshift (by simpa using hnp) rfl
  refine ⟨gf, hgf, ?_⟩
  rw [heq]
  have : now - (t + (now - p)) = p - t := by ring
  simp only []
  rw [this]

/-- A paused state: P accepted their Maimai turn at time 0 and the admin
paused at time 5 (recorded in pause_started_at). -/
def pauseWitnessGame : Game :=
  { initGame "Maimai" with
      now_playing := some "P", turn_accepted := true,
      turn_started_at := some 0, play_started_at := some 0 }

/-- The state holding pauseWitnessGame, paused since time 5. -/
def pauseWitnessState : AppState :=
  { games := [pauseWitnessGame], queue_paused := true, pause_started_at := some 5,
    courtesy_cooldowns := [] }

/-- Witness for C7: resuming at time 9 and finishing immediately credits 5
seconds of play (the pre-pause interval), not 9. -/
theorem toggle_pause_resume_witness :
    pauseWitnessState.queue_paused = true ∧
    pauseWitnessState.pause_started_at = some 5 ∧
    (∃ gf, findGame (done_playing 9 (toggle_pause 9 pauseWitnessState) "Maimai" "P").games
        "Maimai" = some gf ∧
      dget gf.total_play_time "P" 0 = dget pauseWitnessGame.total_play_time "P" 0 + (5 - 0)) :=
  ⟨by decide, by decide,
    (toggle_pause_resume 9 5 pauseWitnessState (by decide) (by decide)).2 "Maimai"
      pauseWitnessGame "P" 0 (by decide) (by decide) (by decide)⟩

/-- C8: the courtesy-cooldown contract: a read with no entry returns zero and
changes nothing; a read of an entry at or past its expiry deletes it and
returns zero; a read of a live entry returns the remaining seconds and
changes nothing; a join while the remaining cooldown is positive is a no-op;
and finishing a turn with an empty queue installs a cooldown for the player
and game expiring COURTESY_COOLDOWN_SECONDS from now. -/
theorem cooldown_spec (now : Int) (s : AppState) (player gname : String) :
    (dfind s.courtesy_cooldowns (player, gname) = none →
      get_cooldown_remaining now s player gname = (0, s)) ∧
    (∀ x, dfind s.courtesy_cooldowns (player, gname) = some x →
      (x - now ≤ 0 →
        get_cooldown_remaining now s player gname =
          (0, { s with courtesy_cooldowns := dpop s.courtesy_cooldowns (player, gname) })) ∧
      (0 < x - now → get_cooldown_remaining now s player gname = (x - now, s))) ∧
    (0 < (get_cooldown_remaining now s player gname).1 →
      join_game now s gname player = s) ∧
    (∀ g, findGame s.games gname = some g → g.now_playing = some player → g.queue = [] →
      dfind (done_playing now s gname player).courtesy_cooldowns (player, gname) =
        some (now + COURTESY_COOLDOWN_SECONDS)) := by
  refine ⟨?_, ?_, ?_, ?_⟩
  · intro h
    unfold get_cooldown_remaining
    rw [h]
  · intro x hx
    constructor
    · intro hle
      unfold get_cooldown_remaining
      rw [hx]
      simp [hle]
    · intro hlt
      unfold get_cooldown_remaining
      rw [hx]
      simp [not_le.mpr hlt]
  · intro h
    unfold join_game
    cases hfg : findGame s.games gname with
    | none => rfl
    | some g =>
      have h2 := gcr_pos_snd h
      simp [h, h2]
  · intro g hg hnp hq
    unfold done_playing
    simp only [hg, hnp, eq_self_iff_true, if_true]
    rw [ripple_cooldowns, advance_game_cooldowns]
    have hq1 : (done_credit now player g).queue = [] := by
      rw [done_credit_queue, hq]
    unfold done_cooldown
    rw [if_pos hq1]
    exact dfind_dset _ _ _

/-- A finished player on an empty queue with one stale cooldown entry, used
to instantiate the cooldown theorem. -/
def cdWitnessGame : Game :=
  { initGame "Maimai" with
      now_playing := some "P", turn_accepted := true,
      turn_started_at := some 0, play_started_at := some 0 }

/-- The state holding cdWitnessGame plus a cooldown entry expiring at 3. -/
def cdWitnessState : AppState :=
  { games := [cdWitnessGame], queue_paused := false, pause_started_at := none,
    courtesy_cooldowns := [(("P", "Maimai"), 3)] }

/-- Witness for C8: the stale entry is evicted on a late read, a live read
blocks the join as a no-op, and finishing with an empty queue installs a
cooldown expiring ten seconds later. -/
theorem cooldown_spec_witness :
    dfind cdWitnessState.courtesy_cooldowns ("P", "Maimai") = some 3 ∧
    get_cooldown_remaining 10 cdWitnessState "P" "Maimai" =
      (0, { cdWitnessState with
              courtesy_cooldowns := dpop cdWitnessState.courtesy_cooldowns ("P", "Maimai") }) ∧
    join_game 1 cdWitnessState "Maimai" "P" = cdWitnessState ∧
    dfind (done_playing 5 cdWitnessState "Maimai" "P").courtesy_cooldowns ("P", "Maimai") =
      some (5 + COURTESY_COOLDOWN_SECONDS) :=
  ⟨by decide,
    ((cooldown_spec 10 cdWitnessState "P" "Maimai").2.1 3 (by decide)).1 (by decide),
    (cooldown_spec 1 cdWitnessState "P" "Maimai").2.2.1 (by decide),
    (cooldown_spec 5 cdWitnessState "P" "Maimai").2.2.2 cdWitnessGame (by decide) (by decide)
      (by decide)⟩


theorem findGame_advance_of_set {now : Int} {s : AppState} {gname : String} {gU gOld : Game}
    (hp : s.queue_paused = false) (hgU : gU.name = gname)
    (hOld : findGame s.games gname = some gOld) :
    findGame (advance_game now (setGameState s gname gU) gname).games gname =
      some (advance_pick now (advance_av (setGameState s gname gU) gname gU) (clearTurn gU)) := by
  have hfind1 : findGame (setGameState s gname gU).games gname = some gU := by
    simp only [setGameState]
    exact findGame_setGame_self hOld hgU
  have hp1 : ¬(setGameState s gname gU).queue_paused = true := by simp [setGameState, hp]
  rw [advance_game_eq_of_some hp1 hfind1]
  simp only [setGameState] at hfind1 ⊢
  exact findGame_setGame_self hfind1 (by rw [advance_pick_name]; simp [clearTurn, hgU])

theorem reinsert_front_name (skipped : String) (g2 : Game) :
    (reinsert_front skipped g2).name = g2.name := rfl

theorem skip_avail_spec {now : Int} {s : AppState} {gname D : String} {g : Game}
    (hg : findGame s.games gname = some g) (hp : s.queue_paused = false)
    (hD : g.now_playing = some D) (hnq : D ∉ g.queue)
    (ha : has_available_player_in_queue s g = true) :
    ∃ g', findGame (skip_avail_state now s gname D g).games gname = some g' ∧
      dget g'.skip_counts D 0 = dget g.skip_counts D 0 + 1 ∧
      ∃ c rest2, g'.now_playing = some c ∧ c ≠ D ∧ g'.queue = D :: rest2 := by
  have hname : g.name = gname := findGame_name hg
  have hincname : (skip_inc_game D g).name = gname := by simp [skip_inc_game, hname]
  have h2 := @findGame_advance_of_set now s gname (skip_inc_game D g) g hp hincname hg
  obtain ⟨q, hqmem, hqav⟩ : ∃ q ∈ g.queue, get_player_playing_game s.games q = none := by
    simpa [has_available_player_in_queue, List.any_eq_true, Option.isNone_iff_eq_none] using ha
  have hav1 : advance_av (setGameState s gname (skip_inc_game D g)) gname (skip_inc_game D g)
      q = true := by
    simp only [advance_av, setGameState, Option.isNone_iff_eq_none]
    rw [gppg_eq_none_iff]
    intro x hx
    rcases mem_setGame hx with rfl | hx2
    · simp [clearTurn]
    · rcases mem_setGame hx2 with rfl | hx3
      · intro hc
        have hgq : g.now_playing = some q := hc
        rw [hD] at hgq
        exact hnq ((Option.some.inj hgq) ▸ hqmem)
      · exact gppg_eq_none_iff.mp hqav x hx3
  rcases hsc : advance_scan (advance_av (setGameState s gname (skip_inc_game D g)) gname
      (skip_inc_game D g)) (clearTurn (skip_inc_game D g)).queue with ⟨sk, sel, rem⟩
  cases sel with
  | none =>
    obtain ⟨_, _, hall⟩ := advance_scan_none hsc
    rw [hall q hqmem] at hav1
    exact absurd hav1 (by simp)
  | some c =>
    obtain ⟨hq, _, hcav⟩ := advance_scan_some hsc
    have hq' : g.queue = sk ++ c :: rem := hq
    have h3 : findGame (skip_avail_state now s gname D g).games gname =
        some (reinsert_front D (advance_pick now
          (advance_av (setGameState s gname (skip_inc_game D g)) gname (skip_inc_game D g))
          (clearTurn (skip_inc_game D g)))) := by
      unfold skip_avail_state
      rw [h2]
      exact findGame_setGame_self h2
        (by rw [reinsert_front_name, advance_pick_name]; exact hname)
    refine ⟨_, h3, ?_, c,
      (advance_pick now (advance_av (setGameState s gname (skip_inc_game D g)) gname
        (skip_inc_game D g)) (clearTurn (skip_inc_game D g))).queue, ?_, ?_, rfl⟩
    · show dget (advance_pick now (advance_av (setGameState s gname (skip_inc_game D g)) gname
        (skip_inc_game D g)) (clearTurn (skip_inc_game D g))).skip_counts D 0 =
        dget g.skip_counts D 0 + 1
      rw [(advance_pick_stats _ _ _).1]
      show dget (dset g.skip_counts D (dget g.skip_counts D 0 + 1)) D 0 =
        dget g.skip_counts D 0 + 1
      exact dget_dset _ _ _ _
    · show (advance_pick now (advance_av (setGameState s gname (skip_inc_game D g)) gname
        (skip_inc_game D g)) (clearTurn (skip_inc_game D g))).now_playing = some c
      simp only [advance_pick]
      rw [hsc]
    · intro hcd
      have hcmem : c ∈ g.queue := by rw [hq']; simp
      exact hnq (hcd ▸ hcmem)

theorem skip_depart_spec {now : Int} {s : AppState} {gname D : String} {g : Game}
    (hg : findGame s.games gname = some g) (hp : s.queue_paused = false)
    (hD : g.now_playing = some D) (hnq : D ∉ g.queue)
    (ha : has_available_player_in_queue s g = false) :
    ∃ g', findGame (skip_depart_state now s gname D g).games gname = some g' ∧
      dfind g'.skip_counts D = none ∧ g'.now_playing = none ∧
      g'.queue = g.queue ∧ D ∉ g'.queue := by
  have hname : g.name = gname := findGame_name hg
  have hpopname : (skip_pop_game D g).name = gname := by simp [skip_pop_game, hname]
  have h2 := @findGame_advance_of_set now s gname (skip_pop_game D g) g hp hpopname hg
  have hunav : ∀ q ∈ g.queue, get_player_playing_game s.games q ≠ none := by
    intro q hqmem hqav
    have hatrue : has_available_player_in_queue s g = true := by
      simp only [has_available_player_in_queue, List.any_eq_true, Option.isNone_iff_eq_none]
      exact ⟨q, hqmem, hqav⟩
    rw [hatrue] at ha
    exact absurd ha (by simp)
  have hav1 : ∀ q ∈ g.queue, advance_av (setGameState s gname (skip_pop_game D g)) gname
      (skip_pop_game D g) q = false := by
    intro q hqmem
    have hqD : q ≠ D := fun hqd => hnq (hqd ▸ hqmem)
    have hDq : ¬(g.now_playing = some q) := by
      rw [hD]
      intro hc
      exact hqD (Option.some.inj hc).symm
    have hset : findGame (setGame s.games gname (skip_pop_game D g)) gname =
        some (skip_pop_game D g) := findGame_setGame_self hg hpopname
    simp only [advance_av, setGameState]
    rw [gppg_setGame (by simp [clearTurn]) ?hold2, gppg_setGame ?hnew1 ?hold1]
    case hnew1 => exact hDq
    case hold1 =>
      intro gOld hgOld
      rw [hg] at hgOld
      rw [← Option.some.inj hgOld]
      exact hDq
    case hold2 =>
      intro gOld hgOld
      rw [hset] at hgOld
      rw [← Option.some.inj hgOld]
      exact hDq
    obtain ⟨y, hy⟩ := Option.ne_none_iff_exists'.mp (hunav q hqmem)
    rw [hy]
    rfl
  rcases hsc : advance_scan (advance_av (setGameState s gname (skip_pop_game D g)) gname
      (skip_pop_game D g)) (clearTurn (skip_pop_game D g)).queue with ⟨sk, sel, rem⟩
  cases sel with
  | some c =>
    obtain ⟨hq, _, hcav⟩ := advance_scan_some hsc
    have hq' : g.queue = sk ++ c :: rem := hq
    have hcmem : c ∈ g.queue := by rw [hq']; simp
    rw [hav1 c hcmem] at hcav
    exact absurd hcav (by simp)
  | none =>
    obtain ⟨hsk, hrem, _⟩ := advance_scan_none hsc
    have hsk' : sk = g.queue := hsk
    unfold skip_depart_state
    refine ⟨_, h2, ?_, ?_, ?_, ?_⟩
    · rw [(advance_pick_stats _ _ _).1]
      show dfind (dpop g.skip_counts D) D = none
      exact dfind_dpop _ _
    · show (advance_pick now (advance_av (setGameState s gname (skip_pop_game D g)) gname
        (skip_pop_game D g)) (clearTurn (skip_pop_game D g))).now_playing = none
      simp only [advance_pick]
      rw [hsc]
      rfl
    · show (advance_pick now (advance_av (setGameState s gname (skip_pop_game D g)) gname
        (skip_pop_game D g)) (clearTurn (skip_pop_game D g))).queue = g.queue
      simp only [advance_pick]
      rw [hsc]
      show sk ++ rem = g.queue
      rw [hsk', hrem]
      simp
    · show D ∉ (advance_pick now (advance_av (setGameState s gname (skip_pop_game D g)) gname
        (skip_pop_game D g)) (clearTurn (skip_pop_game D g))).queue
      simp only [advance_pick]
      rw [hsc]
      show D ∉ sk ++ rem
      rw [hsk', hrem]
      simpa using hnq

/-- A game whose occupant D is (in violation of the queue invariant,
reachable through the paused-skip defect) also present in its own queue. -/
def skipCexGame : Game :=
  { initGame "Maimai" with
      now_playing := some "D", turn_started_at := some 0,
      queue := ["D"], skip_counts := [("D", 5)] }

/-- The non-paused state holding skipCexGame. -/
def skipCexState : AppState :=
  { games := [skipCexGame], queue_paused := false, pause_started_at := none,
    courtesy_cooldowns := [] }

/-- Counterexample for C5: on the non-paused state whose occupant D also sits
in the queue, skipping satisfies neither branch of the claim: the skip count
of D is erased rather than incremented (the queue's only candidate occupies
no other game, so the claim prescribes an increment and a re-insert at
position 0), and the occupant afterwards is D again rather than none (as the
other reading of the availability condition would prescribe). -/
theorem skip_current_occupant_in_queue_cex :
    skipCexState.queue_paused = false ∧
    skipCexGame.now_playing = some "D" ∧
    "D" ∈ skipCexGame.queue ∧
    (findGame (skip_current_player 7 skipCexState "Maimai").games "Maimai").map
      Game.now_playing = some (some "D") ∧
    (findGame (skip_current_player 7 skipCexState "Maimai").games "Maimai").map
      (fun gf => dfind gf.skip_counts "D") = some none := by
  refine ⟨by decide, by decide, by decide, by decide, by decide⟩

/-- C5 (amended): on every non-paused state whose occupant D is not present
in that game's queue: if the queue holds a candidate occupying no game, the
skip increments skipCounts[D], advances, and re-inserts D at queue position
0 directly behind the newly selected (distinct) occupant; if it holds no
such candidate, the skip removes the skipCounts[D] entry and after the
advance the occupant slot is empty, the queue is unchanged, and D is in
neither the slot nor the queue. -/
theorem skip_current_player_spec (now : Int) (s : AppState) (gname D : String) (g : Game)
    (hg : findGame s.games gname = some g) (hp : s.queue_paused = false)
    (hD : g.now_playing = some D) (hnq : D ∉ g.queue) :
    (has_available_player_in_queue s g = true →
      ∃ g', findGame (skip_current_player now s gname).games gname = some g' ∧
        dget g'.skip_counts D 0 = dget g.skip_counts D 0 + 1 ∧
        ∃ c rest2, g'.now_playing = some c ∧ c ≠ D ∧ g'.queue = D :: rest2) ∧
    (has_available_player_in_queue s g = false →
      ∃ g', findGame (skip_current_player now s gname).games gname = some g' ∧
        dfind g'.skip_counts D = none ∧ g'.now_playing = none ∧
        g'.queue = g.queue ∧ D ∉ g'.queue) := by
  constructor
  · intro ha
    have hstep : skip_current_player now s gname =
        ripple now (skip_avail_state now s gname D g) gname := by
      unfold skip_current_player
      simp only [hg, hD, ha, eq_self_iff_true, if_true]
    rw [hstep, ripple_findGame_self]
    exact skip_avail_spec hg hp hD hnq ha
  · intro ha
    have hstep : skip_current_player now s gname =
        ripple now (skip_depart_state now s gname D g) gname := by
      unfold skip_current_player
      simp only [hg, hD, ha, Bool.false_eq_true, if_false]
    rw [hstep, ripple_findGame_self]
    exact skip_depart_spec hg hp hD hnq ha

/-- A pending occupant D with one available candidate B waiting. -/
def skipWitnessGame : Game :=
  { initGame "Maimai" with
      now_playing := some "D", turn_started_at := some 0, queue := ["B"] }

/-- The non-paused state holding skipWitnessGame. -/
def skipWitnessState : AppState :=
  { games := [skipWitnessGame], queue_paused := false, pause_started_at := none,
    courtesy_cooldowns := [] }

/-- Witness for the amended C5 on the available-candidate branch. -/
theorem skip_current_player_spec_witness :
    findGame skipWitnessState.games "Maimai" = some skipWitnessGame ∧
    "D" ∉ skipWitnessGame.queue ∧
    (∃ g', findGame (skip_current_player 3 skipWitnessState "Maimai").games "Maimai" =
        some g' ∧
      dget g'.skip_counts "D" 0 = dget skipWitnessGame.skip_counts "D" 0 + 1 ∧
      ∃ c rest2, g'.now_playing = some c ∧ c ≠ "D" ∧ g'.queue = "D" :: rest2) :=
  ⟨by decide, by decide,
    (skip_current_player_spec 3 skipWitnessState "Maimai" "D" skipWitnessGame (by decide)
      (by decide) (by decide) (by decide)).1 (by decide)⟩

/-- A pending occupant whose accept window has long expired. -/
def expiredPausedGame : Game :=
  { initGame "Maimai" with
      now_playing := some "A", turn_started_at := some 0, queue := ["B"] }

/-- A paused state holding expiredPausedGame. -/
def expiredPausedState : AppState :=
  { games := [expiredPausedGame], queue_paused := true, pause_started_at := some 50,
    courtesy_cooldowns := [] }

/-- Counterexample for C6: a pre-state with an expired pending turn on which
the timeout path and the manual skip disagree: while paused,
check_expired_turns is a guarded no-op but the skip handler still mutates the
state (incrementing the skip count and re-inserting the occupant), so the
two resulting states differ. -/
theorem check_expired_paused_differs_from_skip :
    turn_expired 100 expiredPausedGame = true ∧
    check_expired_turns 100 expiredPausedState ≠
      skip_turn 100 expiredPausedState "Maimai" "A" := by
  refine ⟨by decide, by decide⟩

/-- C6 (amended): on a non-paused state with distinct game names in which
exactly one game has an expired pending turn, the timeout sweep produces
exactly the state of the occupant's manual skip from the same pre-state. -/
theorem check_expired_eq_manual_skip (now : Int) (s : AppState) (ename D : String) (E : Game)
    (hnodup : (s.games.map Game.name).Nodup)
    (hp : s.queue_paused = false)
    (hE : findGame s.games ename = some E)
    (hD : E.now_playing = some D)
    (hacc : E.turn_accepted = false)
    (hexp : turn_expired now E = true)
    (hothers : ∀ g ∈ s.games, g.name ≠ ename → turn_expired now g = false) :
    check_expired_turns now s = skip_turn now s ename D := by
  have hrhs : skip_turn now s ename D = skip_current_player now s ename := by
    unfold skip_turn
    simp only [hE]
    rw [if_pos ⟨hD, hacc⟩]
  unfold check_expired_turns
  rw [if_neg (by simp [hp]), hrhs]
  have hmem : ename ∈ s.games.map Game.name :=
    List.mem_map.mpr ⟨E, findGame_mem hE, findGame_name hE⟩
  obtain ⟨l₁, l₂, hsplit⟩ := List.append_of_mem hmem
  have hnd : (l₁ ++ ename :: l₂).Nodup := hsplit ▸ hnodup
  have hnotl₁ : ename ∉ l₁ := by
    intro hmem1
    exact (List.nodup_append.mp hnd).2.2 hmem1 (by simp)
  have hnotl₂ : ename ∉ l₂ := by
    have := (List.nodup_append.mp hnd).2.1
    exact (List.nodup_cons.mp this).1
  rw [hsplit, List.foldl_append, List.foldl_cons]
  have hph1 : List.foldl (cstep now) s l₁ = s := by
    apply foldl_cstep_id
    intro n hn g hfind
    apply hothers g (findGame_mem hfind)
    rw [findGame_name hfind]
    intro hne
    exact hnotl₁ (hne ▸ hn)
  rw [hph1]
  have hph2 : cstep now s ename = skip_current_player now s ename := by
    unfold cstep
    simp only [hE, hexp, eq_self_iff_true, if_true]
  rw [hph2]
  apply foldl_cstep_id
  intro n hn g'' hfind
  have hne : n ≠ ename := fun h => hnotl₂ (h ▸ hn)
  rcases skip_shape hne hfind with h' | h' | h'
  · apply hothers g'' (findGame_mem h')
    rw [findGame_name h']
    exact hne
  · cases hts : g''.turn_started_at <;> simp [turn_expired, h', hts]
  · cases hnp' : g''.now_playing <;>
      simp [turn_expired, hnp', h', sub_self, TURN_TIMEOUT_SECONDS]

/-- A pending occupant exactly at the sixty-second boundary. -/
def expiredWitnessGame : Game :=
  { initGame "Maimai" with
      now_playing := some "A", turn_started_at := some 0, queue := ["B"] }

/-- A non-paused two-game state in which only Maimai has an expired turn. -/
def expiredWitnessState : AppState :=
  { games := [expiredWitnessGame, initGame "Chunithm"], queue_paused := false,
    pause_started_at := none, courtesy_cooldowns := [] }

/-- Witness for the amended C6: the timeout sweep at time sixty equals the
occupant's manual skip on the same pre-state. -/
theorem check_expired_eq_manual_skip_witness :
    (expiredWitnessState.games.map Game.name).Nodup ∧
    turn_expired 60 expiredWitnessGame = true ∧
    check_expired_turns 60 expiredWitnessState =
      skip_turn 60 expiredWitnessState "Maimai" "A" :=
  ⟨by decide, by decide,
    check_expired_eq_manual_skip 60 expiredWitnessState "Maimai" "A" expiredWitnessGame
      (by decide) (by decide) (by decide) (by decide) (by decide) (by decide) (by decide)⟩
